import Mathlib

/-!
Shallow embedding of `markdown2html.py` (Markdown-to-HTML converter).

Text is modelled as `List Char` (Python `str`).  The abstract MD5 hex
digest function is a parameter `md5 : List Char → List Char` standing for
`hashlib.md5(x.encode()).hexdigest()`, whose internals live outside the
repository.  Lines read from the input file are modelled by their content
without the terminating newline; the regex matching accounts for the
newline that `for line in f` keeps at the end of each line (we model the
case where every line is newline-terminated).
-/

namespace Markdown2Html

/-- The ASCII whitespace characters matched by Python's regex `\s` and
stripped by `str.strip` / `str.rstrip` (we model the ASCII fragment of the
Unicode whitespace set; every input in this development is ASCII). -/
def isPySpace (c : Char) : Bool :=
  c == ' ' || c == '\t' || c == '\n' || c == '\r' || c == '\x0b' || c == '\x0c'

/-- Python `str.rstrip()`: drop trailing whitespace. -/
def rstrip (l : List Char) : List Char :=
  (l.reverse.dropWhile isPySpace).reverse

/-- Python `line.strip() == ""`: the line consists of whitespace only. -/
def isBlank (l : List Char) : Bool :=
  l.all isPySpace

/-- Does `p` occur as a contiguous substring of `s`? -/
def hasSub (p : List Char) : List Char → Bool
  | [] => p.isEmpty
  | a :: rest => p.isPrefixOf (a :: rest) || hasSub p rest

/-- Lazy search for the pattern `.{mn}.*?c1c2` used by each of the four
inline regexes: consume at least `mn` interior characters, none of them a
newline (Python `.` does not match `\n`), then the two-character closing
delimiter, preferring the shortest interior (non-greedy `+?` / `*?`).
Returns the interior and the remainder after the closing delimiter. -/
def findLazy (c1 c2 : Char) : Nat → List Char → Option (List Char × List Char)
  | Nat.succ n, a :: rest =>
      if a == '\n' then none
      else (findLazy c1 c2 n rest).map (fun p => (a :: p.1, p.2))
  | 0, a :: b :: rest =>
      if a == c1 && b == c2 then some ([], rest)
      else if a == '\n' then none
      else (findLazy c1 c2 0 (b :: rest)).map (fun p => (a :: p.1, p.2))
  | _, _ => none

/-- Fuelled core of `re.sub` for a pattern
`o1 o2 (interior, lazily, min length mn) c1 c2` with replacement `f`:
scan left to right; at a match emit `f interior` and continue after the
match (the replacement is not rescanned); otherwise copy one character.
Fuel only bounds the recursion; `subPat` supplies enough of it. -/
def subPatF (o1 o2 c1 c2 : Char) (mn : Nat) (f : List Char → List Char) :
    Nat → List Char → List Char
  | _, [] => []
  | _, [a] => [a]
  | 0, s => s
  | Nat.succ fuel, a :: b :: rest =>
      if a == o1 && b == o2 then
        match findLazy c1 c2 mn rest with
        | some (int, after) => f int ++ subPatF o1 o2 c1 c2 mn f fuel after
        | none => a :: subPatF o1 o2 c1 c2 mn f fuel (b :: rest)
      else a :: subPatF o1 o2 c1 c2 mn f fuel (b :: rest)

/-- `re.sub` for one of the four two-character-delimited patterns. -/
def subPat (o1 o2 c1 c2 : Char) (mn : Nat) (f : List Char → List Char)
    (s : List Char) : List Char :=
  subPatF o1 o2 c1 c2 mn f s.length s

/-- Replacement template `<b>\1</b>` of the bold substitution. -/
def boldRepl (i : List Char) : List Char :=
  "<b>".data ++ i ++ "</b>".data

/-- Replacement template `<em>\1</em>` of the emphasis substitution. -/
def emRepl (i : List Char) : List Char :=
  "<em>".data ++ i ++ "</em>".data

/-- `re.sub(r"\*\*(.+?)\*\*", r"<b>\1</b>", text)`. -/
def subBold (t : List Char) : List Char :=
  subPat '*' '*' '*' '*' 1 boldRepl t

/-- `re.sub(r"__(.+?)__", r"<em>\1</em>", text)`. -/
def subEm (t : List Char) : List Char :=
  subPat '_' '_' '_' '_' 1 emRepl t

/-- `re.sub(r"\[\[(.+?)\]\]", lambda x: md5(x.group(1)).hexdigest(), text)`. -/
def subMd5 (md5 : List Char → List Char) (t : List Char) : List Char :=
  subPat '[' '[' ']' ']' 1 md5 t

/-- `re.sub(r"\(\((.*?)\)\)", '', text)`. -/
def subRemove (t : List Char) : List Char :=
  subPat '(' '(' ')' ')' 0 (fun _ => []) t

/-- `parse_inline_markup`: the four substitutions in the order of the
source: bold, then emphasis, then MD5 hashing, then removal. -/
def parse_inline_markup (md5 : List Char → List Char) (t : List Char) :
    List Char :=
  subRemove (subMd5 md5 (subEm (subBold t)))

/-- Heading classification `re.match(r"^(#+) (.*)$", line)` on the line
content: one or more `#`, a literal space, then the rest of the line.
Returns the heading level (number of `#`) and the heading text. -/
def matchHeading (line : List Char) : Option (Nat × List Char) :=
  let k := (line.takeWhile (fun c => c == '#')).length
  if k = 0 then none
  else
    match line.drop k with
    | ' ' :: text => some (k, text)
    | _ => none

/-- List-item classification `re.match(r"^[*-]\s(.*)$", line)` on the line
content: `*` or `-`, then one whitespace character (`\s`, which also
matches the line's terminating newline: a bare `*` or `-` line is an item
with empty text), then the item text. -/
def matchListItem (line : List Char) : Option (List Char) :=
  match line with
  | [m] => if m == '*' || m == '-' then some [] else none
  | m :: w :: rest =>
      if (m == '*' || m == '-') && isPySpace w then some rest else none
  | [] => none

/-- The mutable state of `convert_markdown_to_html`'s loop:
the accumulated fragment lines and the five flags. -/
structure ConvState where
  html : List (List Char)
  in_list : Bool
  list_type : List Char
  in_paragraph : Bool
  in_bold : Bool
  in_emphasis : Bool
deriving Repr, DecidableEq

/-- State at the top of the loop: empty buffer, all flags cleared,
`list_type = ""`. -/
def initState : ConvState :=
  { html := [], in_list := false, list_type := [],
    in_paragraph := false, in_bold := false, in_emphasis := false }

/-- The close tags for paragraph/bold/emphasis emitted at the top of the
heading and list-item branches (and at end of input). -/
def pbeClosers (st : ConvState) : List (List Char) :=
  (if st.in_paragraph then ["</p>".data] else []) ++
  (if st.in_bold then ["</b>".data] else []) ++
  (if st.in_emphasis then ["</em>".data] else [])

/-- Heading fragment `f"<h{n}>{text}</h{n}>"`. -/
def hFrag (n : Nat) (text : List Char) : List Char :=
  "<h".data ++ (Nat.repr n).data ++ ">".data ++ text ++
    "</h".data ++ (Nat.repr n).data ++ ">".data

/-- List-item fragment `f"<li>{text}</li>"`. -/
def liFrag (text : List Char) : List Char :=
  "<li>".data ++ text ++ "</li>".data

/-- List opening fragment `f"<{list_type}>"`. -/
def listOpenFrag (t : List Char) : List Char :=
  "<".data ++ t ++ ">".data

/-- List closing fragment `f"</{list_type}>"`. -/
def listCloseFrag (t : List Char) : List Char :=
  "</".data ++ t ++ ">".data

/-- One iteration of the `for line in f` loop of
`convert_markdown_to_html`, on the line's content. -/
def processLine (md5 : List Char → List Char) (st : ConvState)
    (line : List Char) : ConvState :=
  match matchHeading line with
  | some (lvl, text) =>
      { st with
        html := st.html ++ pbeClosers st ++
          [hFrag lvl (parse_inline_markup md5 text)],
        in_paragraph := false, in_bold := false, in_emphasis := false }
  | none =>
      match matchListItem line with
      | some item =>
          if st.in_list then
            { st with
              html := st.html ++ pbeClosers st ++
                [liFrag (parse_inline_markup md5 item)],
              in_paragraph := false, in_bold := false, in_emphasis := false }
          else
            let t : List Char :=
              if line.head? = some '*' then "ol".data else "ul".data
            { st with
              html := st.html ++ pbeClosers st ++
                [listOpenFrag t, liFrag (parse_inline_markup md5 item)],
              in_list := true, list_type := t,
              in_paragraph := false, in_bold := false, in_emphasis := false }
      | none =>
          let listClose : List (List Char) :=
            if st.in_list then [listCloseFrag st.list_type] else []
          if st.in_paragraph = false ∧ isBlank line = false then
            { st with
              html := st.html ++ listClose ++
                ["<p>".data,
                 parse_inline_markup md5 (rstrip ("    ".data ++ line))],
              in_list := false, in_paragraph := true }
          else if st.in_paragraph = true ∧ isBlank line = true then
            { st with
              html := st.html ++ listClose ++
                ["</p>".data, parse_inline_markup md5 (rstrip line)],
              in_list := false, in_paragraph := false }
          else
            { st with
              html := st.html ++ listClose ++
                [parse_inline_markup md5 (rstrip line)],
              in_list := false }

/-- The closing emissions after the loop: close a still-open list, then a
still-open paragraph (the bold/emphasis closers are dead code, kept for
fidelity). -/
def finalize (st : ConvState) : List (List Char) :=
  st.html ++
  (if st.in_list then [listCloseFrag st.list_type] else []) ++
  (if st.in_paragraph then ["</p>".data] else []) ++
  (if st.in_bold then ["</b>".data] else []) ++
  (if st.in_emphasis then ["</em>".data] else [])

/-- The loop of `convert_markdown_to_html` over the line contents of the
input file, producing the fragment lines. -/
def convert_markdown_to_html (md5 : List Char → List Char)
    (lines : List (List Char)) : List (List Char) :=
  finalize (lines.foldl (processLine md5) initState)

/-- `"\n".join(html_lines)`: the text written to the output file. -/
def renderOutput (frags : List (List Char)) : List Char :=
  List.intercalate "\n".data frags

/-- Characters with a block- or inline-markup meaning anywhere in the
converter: heading marker, list markers, and the four inline delimiter
characters. -/
def isMarkupChar (c : Char) : Bool :=
  c == '#' || c == '*' || c == '-' || c == '_' ||
  c == '[' || c == ']' || c == '(' || c == ')'

/-- A markup-free, non-blank line: it can only be paragraph content. -/
def plainLine (x : List Char) : Bool :=
  x.all (fun c => !(isMarkupChar c)) && !(isBlank x)

theorem hasSub_cons_false {p a : _} {rest : List Char}
    (h : hasSub p (a :: rest) = false) : hasSub p rest = false := by
  simp [hasSub] at h
  exact h.2

theorem hasSub_cons_not_pre {p a : _} {rest : List Char}
    (h : hasSub p (a :: rest) = false) : p.isPrefixOf (a :: rest) = false := by
  simp [hasSub] at h
  exact h.1

theorem hasSub_false_of_not_mem {u v : Char} {x : List Char}
    (h : ∀ c ∈ x, (c == u) = false) : hasSub [u, v] x = false := by
  induction x with
  | nil => rfl
  | cons a rest ih =>
      have ha : (a == u) = false := h a (List.mem_cons_self a rest)
      have hpre : List.isPrefixOf [u, v] (a :: rest) = false := by
        simp [List.isPrefixOf]
        intro hu
        simp [hu] at ha
      simp [hasSub, hpre]
      exact ih (fun c hc => h c (List.mem_cons_of_mem a hc))

theorem findLazy_none {c1 c2 : Char} :
    ∀ (s : List Char), hasSub [c1, c2] s = false →
      ∀ mn, findLazy c1 c2 mn s = none := by
  intro s
  induction s with
  | nil => intro _ mn; cases mn <;> rfl
  | cons a rest ih =>
      intro h mn
      have hrest := hasSub_cons_false h
      cases mn with
      | succ n =>
          simp [findLazy, ih hrest n]
      | zero =>
          cases rest with
          | nil => rfl
          | cons b rest2 =>
              have hpre := hasSub_cons_not_pre h
              have hcl : (a == c1 && b == c2) = false := by
                simp [List.isPrefixOf] at hpre
                simp
                intro h1 h2
                simp [h1, h2] at hpre
              simp [findLazy, hcl, ih hrest 0]

theorem subPatF_id_of_no_open {o1 o2 c1 c2 : Char} {mn : Nat}
    {f : List Char → List Char} :
    ∀ (fuel : Nat) (s : List Char), hasSub [o1, o2] s = false →
      subPatF o1 o2 c1 c2 mn f fuel s = s := by
  intro fuel
  induction fuel with
  | zero =>
      intro s _
      match s with
      | [] => rfl
      | [a] => rfl
      | a :: b :: rest => rfl
  | succ fuel ih =>
      intro s h
      match s with
      | [] => rfl
      | [a] => rfl
      | a :: b :: rest =>
          have hpre := hasSub_cons_not_pre h
          have hop : (a == o1 && b == o2) = false := by
            simp [List.isPrefixOf] at hpre
            simp
            intro h1 h2
            simp [h1, h2] at hpre
          simp [subPatF, hop, ih (b :: rest) (hasSub_cons_false h)]

theorem subPatF_id_of_no_close {o1 o2 c1 c2 : Char} {mn : Nat}
    {f : List Char → List Char} :
    ∀ (fuel : Nat) (s : List Char), hasSub [c1, c2] s = false →
      subPatF o1 o2 c1 c2 mn f fuel s = s := by
  intro fuel
  induction fuel with
  | zero =>
      intro s _
      match s with
      | [] => rfl
      | [a] => rfl
      | a :: b :: rest => rfl
  | succ fuel ih =>
      intro s h
      match s with
      | [] => rfl
      | [a] => rfl
      | a :: b :: rest =>
          have hrest : hasSub [c1, c2] rest = false :=
            hasSub_cons_false (hasSub_cons_false h)
          have htail := ih (b :: rest) (hasSub_cons_false h)
          by_cases hop : (a == o1 && b == o2) = true
          · simp [subPatF, hop, findLazy_none rest hrest mn, htail]
          · simp [subPatF, hop, htail]

theorem subBold_id {s : List Char} (h : hasSub "**".data s = false) :
    subBold s = s :=
  subPatF_id_of_no_open s.length s h

theorem subEm_id {s : List Char} (h : hasSub "__".data s = false) :
    subEm s = s :=
  subPatF_id_of_no_open s.length s h

theorem subMd5_id_noopen {md5 : List Char → List Char} {s : List Char}
    (h : hasSub "[[".data s = false) : subMd5 md5 s = s :=
  subPatF_id_of_no_open s.length s h

theorem subMd5_id_noclose {md5 : List Char → List Char} {s : List Char}
    (h : hasSub "]]".data s = false) : subMd5 md5 s = s :=
  subPatF_id_of_no_close s.length s h

theorem subRemove_id_noopen {s : List Char}
    (h : hasSub "((".data s = false) : subRemove s = s :=
  subPatF_id_of_no_open s.length s h

theorem subRemove_id_noclose {s : List Char}
    (h : hasSub "))".data s = false) : subRemove s = s :=
  subPatF_id_of_no_close s.length s h

theorem parse_inline_markup_id {md5 : List Char → List Char} {s : List Char}
    (hb : hasSub "**".data s = false) (he : hasSub "__".data s = false)
    (hm : hasSub "[[".data s = false) (hr : hasSub "((".data s = false) :
    parse_inline_markup md5 s = s := by
  unfold parse_inline_markup
  rw [subBold_id hb, subEm_id he, subMd5_id_noopen hm, subRemove_id_noopen hr]

theorem parse_id_of_markupFree {md5 : List Char → List Char} {x : List Char}
    (h : x.all (fun c => !(isMarkupChar c)) = true) :
    parse_inline_markup md5 x = x := by
  rw [List.all_eq_true] at h
  have hc : ∀ u : Char, isMarkupChar u = true → ∀ c ∈ x, (c == u) = false := by
    intro u hu c hcx
    have := h c hcx
    simp at this
    simp only [beq_eq_false_iff_ne, ne_eq]
    intro he
    rw [he] at this
    simp [this] at hu
  exact parse_inline_markup_id
    (hasSub_false_of_not_mem (hc '*' (by rfl)))
    (hasSub_false_of_not_mem (hc '_' (by rfl)))
    (hasSub_false_of_not_mem (hc '[' (by rfl)))
    (hasSub_false_of_not_mem (hc '(' (by rfl)))

theorem mem_of_mem_dropWhile {p : Char → Bool} :
    ∀ {l : List Char} {a : Char}, a ∈ l.dropWhile p → a ∈ l := by
  intro l
  induction l with
  | nil => intro a h; simp [List.dropWhile] at h
  | cons b t ih =>
      intro a h
      rw [List.dropWhile_cons] at h
      by_cases hb : p b = true
      · simp [hb] at h
        exact List.mem_cons_of_mem b (ih h)
      · simp [hb] at h
        rcases h with h | h
        · exact h ▸ List.mem_cons_self b t
        · exact List.mem_cons_of_mem b h

theorem mem_rstrip {c : Char} {x : List Char} (h : c ∈ rstrip x) : c ∈ x := by
  unfold rstrip at h
  rw [List.mem_reverse] at h
  have := mem_of_mem_dropWhile h
  rwa [List.mem_reverse] at this

theorem markupFree_rstrip {x : List Char}
    (h : x.all (fun c => !(isMarkupChar c)) = true) :
    (rstrip x).all (fun c => !(isMarkupChar c)) = true := by
  rw [List.all_eq_true] at h ⊢
  exact fun c hc => h c (mem_rstrip hc)

theorem all_of_dropWhile_eq_nil {p : Char → Bool} {l : List Char}
    (h : l.dropWhile p = []) : l.all p = true := by
  rw [List.dropWhile_eq_nil_iff] at h
  rw [List.all_eq_true]
  exact h

theorem rstrip_ne_nil {x : List Char} (h : isBlank x = false) :
    rstrip x ≠ [] := by
  intro hn
  unfold rstrip at hn
  rw [List.reverse_eq_nil_iff] at hn
  have hall := all_of_dropWhile_eq_nil hn
  rw [List.all_eq_true] at hall
  unfold isBlank at h
  rw [Bool.eq_false_iff] at h
  apply h
  rw [List.all_eq_true]
  intro c hc
  exact hall c (List.mem_reverse.mpr hc)

theorem rstrip_append {a x : List Char} (h : rstrip x ≠ []) :
    rstrip (a ++ x) = a ++ rstrip x := by
  have hne : (x.reverse.dropWhile isPySpace).isEmpty = false := by
    cases hx : x.reverse.dropWhile isPySpace with
    | nil => exact absurd (by unfold rstrip; rw [hx]; rfl) h
    | cons c t => rfl
  unfold rstrip
  rw [List.reverse_append, List.dropWhile_append, hne]
  simp

theorem matchHeading_cons_none {a : Char} {t : List Char}
    (h : (a == '#') = false) : matchHeading (a :: t) = none := by
  simp [matchHeading, List.takeWhile_cons, h]

theorem matchListItem_none_of_head {a : Char} {t : List Char}
    (h1 : (a == '*') = false) (h2 : (a == '-') = false) :
    matchListItem (a :: t) = none := by
  cases t with
  | nil => simp [matchListItem, h1, h2]
  | cons w r => simp [matchListItem, h1, h2]

theorem matchListItem_head {line item : List Char}
    (h : matchListItem line = some item) :
    ∃ t, line = '*' :: t ∨ line = '-' :: t := by
  match line with
  | [] => exact absurd h (by simp [matchListItem])
  | [m] =>
      refine ⟨[], ?_⟩
      by_cases h1 : (m == '*') = true
      · left; rw [eq_of_beq h1]
      · by_cases h2 : (m == '-') = true
        · right; rw [eq_of_beq h2]
        · simp [matchListItem, Bool.eq_false_iff.mpr h1,
            Bool.eq_false_iff.mpr h2] at h
  | m :: w :: rest =>
      refine ⟨w :: rest, ?_⟩
      by_cases h1 : (m == '*') = true
      · left; rw [eq_of_beq h1]
      · by_cases h2 : (m == '-') = true
        · right; rw [eq_of_beq h2]
        · simp [matchListItem, Bool.eq_false_iff.mpr h1,
            Bool.eq_false_iff.mpr h2] at h

theorem matchHeading_of_item {line item : List Char}
    (h : matchListItem line = some item) : matchHeading line = none := by
  obtain ⟨t, ht | ht⟩ := matchListItem_head h <;>
    exact ht ▸ matchHeading_cons_none rfl

theorem takeWhile_hash (n : Nat) (txt : List Char) :
    (List.replicate n '#' ++ ' ' :: txt).takeWhile (fun c => c == '#') =
      List.replicate n '#' := by
  induction n with
  | zero => simp [List.takeWhile_cons]
  | succ n ih => simp [List.replicate_succ, List.takeWhile_cons, ih]

theorem matchHeading_repl (n : Nat) (txt : List Char) :
    matchHeading (List.replicate (n + 1) '#' ++ ' ' :: txt) =
      some (n + 1, txt) := by
  unfold matchHeading
  rw [takeWhile_hash]
  simp [List.drop_left' (List.length_replicate (n + 1) '#')]

theorem processLine_heading {md5 : List Char → List Char} {st : ConvState}
    {line text : List Char} {k : Nat}
    (h : matchHeading line = some (k, text)) :
    processLine md5 st line =
      { st with
        html := st.html ++ pbeClosers st ++
          [hFrag k (parse_inline_markup md5 text)],
        in_paragraph := false, in_bold := false, in_emphasis := false } := by
  simp [processLine, h]

theorem processLine_item_open {md5 : List Char → List Char} {st : ConvState}
    {line item : List Char}
    (hh : matchHeading line = none) (hi : matchListItem line = some item)
    (hl : st.in_list = false) :
    processLine md5 st line =
      { st with
        html := st.html ++ pbeClosers st ++
          [listOpenFrag (if line.head? = some '*' then "ol".data else "ul".data),
           liFrag (parse_inline_markup md5 item)],
        in_list := true,
        list_type := (if line.head? = some '*' then "ol".data else "ul".data),
        in_paragraph := false, in_bold := false, in_emphasis := false } := by
  simp [processLine, hh, hi, hl]

theorem processLine_item_cont {md5 : List Char → List Char} {st : ConvState}
    {line item : List Char}
    (hh : matchHeading line = none) (hi : matchListItem line = some item)
    (hl : st.in_list = true) :
    processLine md5 st line =
      { st with
        html := st.html ++ pbeClosers st ++
          [liFrag (parse_inline_markup md5 item)],
        in_paragraph := false, in_bold := false, in_emphasis := false } := by
  simp [processLine, hh, hi, hl]

theorem processLine_other_newpara {md5 : List Char → List Char}
    {st : ConvState} {line : List Char}
    (hh : matchHeading line = none) (hi : matchListItem line = none)
    (hp : st.in_paragraph = false) (hb : isBlank line = false) :
    processLine md5 st line =
      { st with
        html := st.html ++
          (if st.in_list then [listCloseFrag st.list_type] else []) ++
          ["<p>".data,
           parse_inline_markup md5 (rstrip ("    ".data ++ line))],
        in_list := false, in_paragraph := true } := by
  simp [processLine, hh, hi, hp, hb]

theorem processLine_other_endpara {md5 : List Char → List Char}
    {st : ConvState} {line : List Char}
    (hh : matchHeading line = none) (hi : matchListItem line = none)
    (hp : st.in_paragraph = true) (hb : isBlank line = true) :
    processLine md5 st line =
      { st with
        html := st.html ++
          (if st.in_list then [listCloseFrag st.list_type] else []) ++
          ["</p>".data, parse_inline_markup md5 (rstrip line)],
        in_list := false, in_paragraph := false } := by
  simp [processLine, hh, hi, hp, hb]

theorem processLine_other_content {md5 : List Char → List Char}
    {st : ConvState} {line : List Char}
    (hh : matchHeading line = none) (hi : matchListItem line = none)
    (hp : st.in_paragraph = true) (hb : isBlank line = false) :
    processLine md5 st line =
      { st with
        html := st.html ++
          (if st.in_list then [listCloseFrag st.list_type] else []) ++
          [parse_inline_markup md5 (rstrip line)],
        in_list := false } := by
  simp [processLine, hh, hi, hp, hb]

theorem processLine_other_blank_outside {md5 : List Char → List Char}
    {st : ConvState} {line : List Char}
    (hh : matchHeading line = none) (hi : matchListItem line = none)
    (hp : st.in_paragraph = false) (hb : isBlank line = true) :
    processLine md5 st line =
      { st with
        html := st.html ++
          (if st.in_list then [listCloseFrag st.list_type] else []) ++
          [parse_inline_markup md5 (rstrip line)],
        in_list := false } := by
  simp [processLine, hh, hi, hp, hb]

/-- A list-item line, as the spec describes it once amended: the marker
`*` or `-` followed by one whitespace character (not only a space) and the
item text; a bare marker line is an item with empty text because `\s`
matches the line's terminating newline. -/
def listItemSpec (line item : List Char) : Prop :=
  (∃ m w rest, (m = '*' ∨ m = '-') ∧ isPySpace w = true ∧
      line = m :: w :: rest ∧ item = rest) ∨
  ((line = ['*'] ∨ line = ['-']) ∧ item = [])

/-- C1: a list-item line seen while no list is open emits `<ol>` when the
line's first character is `*` and `<ul>` otherwise; the stored list kind
equals that tag, the closing tag emitted later matches it (shown at end of
input and on the two-item runs), and `"* a","* b"` / `"- a","- b"` produce
the ol / ul sequences of the spec. -/
theorem list_open_tag (md5 : List Char → List Char) (st : ConvState)
    (line item : List Char)
    (hl : st.in_list = false) (hi : matchListItem line = some item) :
    (processLine md5 st line).in_list = true ∧
    (processLine md5 st line).list_type =
      (if line.head? = some '*' then "ol".data else "ul".data) ∧
    (processLine md5 st line).html =
      st.html ++ pbeClosers st ++
        [listOpenFrag (if line.head? = some '*' then "ol".data else "ul".data),
         liFrag (parse_inline_markup md5 item)] ∧
    finalize (processLine md5 st line) =
      st.html ++ pbeClosers st ++
        [listOpenFrag (if line.head? = some '*' then "ol".data else "ul".data),
         liFrag (parse_inline_markup md5 item),
         listCloseFrag (if line.head? = some '*' then "ol".data else "ul".data)] ∧
    convert_markdown_to_html md5 ["* a".data, "* b".data] =
      ["<ol>".data, "<li>a</li>".data, "<li>b</li>".data, "</ol>".data] ∧
    convert_markdown_to_html md5 ["- a".data, "- b".data] =
      ["<ul>".data, "<li>a</li>".data, "<li>b</li>".data, "</ul>".data] := by
  have hh := matchHeading_of_item hi
  rw [processLine_item_open hh hi hl]
  refine ⟨rfl, rfl, rfl, ?_, rfl, rfl⟩
  simp [finalize]

theorem list_open_tag_witness :
    (initState.in_list = false ∧ matchListItem "* a".data = some "a".data) ∧
    (processLine (fun x => x) initState "* a".data).list_type =
      (if ("* a".data).head? = some '*' then "ol".data else "ul".data) :=
  ⟨⟨rfl, rfl⟩,
    (list_open_tag (fun x => x) initState "* a".data "a".data rfl rfl).2.1⟩

/-- C2: a line of `n+1` hash marks, a space, and text is classified as a
heading of level `n+1` (no upper bound on `n`), and processing it appends
exactly one fragment `<hN>` + transformed text + `</hN>`; in particular
`"## Title"` converts to the single fragment `<h2>Title</h2>`. -/
theorem heading_line_fragment (md5 : List Char → List Char) (st : ConvState)
    (n : Nat) (txt : List Char) :
    matchHeading (List.replicate (n + 1) '#' ++ ' ' :: txt) =
      some (n + 1, txt) ∧
    (processLine md5 st (List.replicate (n + 1) '#' ++ ' ' :: txt)).html =
      st.html ++ pbeClosers st ++
        [hFrag (n + 1) (parse_inline_markup md5 txt)] ∧
    convert_markdown_to_html md5 ["## Title".data] = ["<h2>Title</h2>".data] := by
  refine ⟨matchHeading_repl n txt, ?_, rfl⟩
  rw [processLine_heading (matchHeading_repl n txt)]

/-- C3 counterexample: the line `*<TAB>a`, whose marker is followed by a
tab rather than a single space, is classified as a list item and converted
as one, contrary to the claim. -/
theorem list_item_space_counterexample :
    matchListItem ['*', '\t', 'a'] = some ['a'] ∧
    convert_markdown_to_html (fun x => x) [['*', '\t', 'a']] =
      ["<ol>".data, "<li>a</li>".data, "</ol>".data] := ⟨rfl, rfl⟩

/-- C3 amended: a line is classified as a list item exactly when it is
`*` or `-` followed by one whitespace character (space, tab, or any other
`\s` character — not only a single space) and then the item text, or is a
bare `*` / `-` line (the `\s` matching the terminating newline). -/
theorem list_item_classification (line item : List Char) :
    matchListItem line = some item ↔ listItemSpec line item := by
  constructor
  · intro h
    cases line with
    | nil => simp [matchListItem] at h
    | cons m t =>
        cases t with
        | nil =>
            by_cases hm : (m == '*' || m == '-') = true
            · have hitem : item = [] := by
                simp [matchListItem, hm] at h
                exact h
              right
              refine ⟨?_, hitem⟩
              rcases Bool.or_eq_true_iff.mp hm with h1 | h1
              · left; rw [eq_of_beq h1]
              · right; rw [eq_of_beq h1]
            · simp [matchListItem, Bool.eq_false_iff.mpr hm] at h
        | cons w r =>
            by_cases hc : ((m == '*' || m == '-') && isPySpace w) = true
            · have hitem : item = r := by
                simp [matchListItem, hc] at h
                exact h.symm
              left
              obtain ⟨hm, hw⟩ := Bool.and_eq_true_iff.mp hc
              refine ⟨m, w, r, ?_, hw, rfl, hitem⟩
              rcases Bool.or_eq_true_iff.mp hm with h1 | h1
              · left; exact eq_of_beq h1
              · right; exact eq_of_beq h1
            · simp [matchListItem, Bool.eq_false_iff.mpr hc] at h
  · intro h
    rcases h with ⟨m, w, rest, hm, hw, hline, hitem⟩ | ⟨hline, hitem⟩
    · subst hline; subst hitem
      rcases hm with hm | hm <;> subst hm <;> simp [matchListItem, hw]
    · subst hitem
      rcases hline with h | h <;> subst h <;> rfl

/-- C4 counterexample: with a concrete stand-in digest function, the value
substituted for `[[**a**]]` is not the digest of the raw interior
`**a**`: the bold substitution has already run. -/
theorem hash_raw_counterexample :
    parse_inline_markup (fun s => 'H' :: s) "[[**a**]]".data ≠
      (fun s => 'H' :: s) "**a**".data := by decide

/-- C4 amended: the hashing substitution sees the text produced by the
earlier bold and emphasis substitutions, not the raw input: for
`[[**a**]]` the hashed interior is `<b>a</b>` (for any digest function
whose output contains no `((`, as a hex digest does not). -/
theorem hash_sees_bolded (md5 : List Char → List Char)
    (hhex : ∀ s, hasSub "((".data (md5 s) = false) :
    parse_inline_markup md5 "[[**a**]]".data = md5 "<b>a</b>".data := by
  have h1 : subEm (subBold "[[**a**]]".data) = "[[<b>a</b>]]".data := rfl
  have h2 : subMd5 md5 "[[<b>a</b>]]".data = md5 "<b>a</b>".data ++ [] := rfl
  unfold parse_inline_markup
  rw [h1, h2, List.append_nil]
  exact subRemove_id_noopen (hhex _)

theorem hash_sees_bolded_witness :
    parse_inline_markup (fun _ => []) "[[**a**]]".data =
      (fun _ => ([] : List Char)) "<b>a</b>".data :=
  hash_sees_bolded (fun _ => []) (fun _ => rfl)

/-- C6 counterexample: after the run `"- a"` then a blank line, the list
has been closed (`in_list` is false) but `list_type` still holds `"ul"`,
so the claimed iff between an empty list kind and `in_list = false` fails. -/
theorem list_kind_invariant_counterexample :
    (List.foldl (processLine (fun x => x)) initState
        ["- a".data, []]).in_list = false ∧
    (List.foldl (processLine (fun x => x)) initState
        ["- a".data, []]).list_type = "ul".data ∧
    "ul".data ≠ ([] : List Char) := ⟨rfl, rfl, by decide⟩

/-- C6 amended: only one direction of the invariant holds: whenever
`in_list` is true, `list_type` is `"ul"` or `"ol"`, and this is preserved
by every line; initially `in_list` is false and `list_type` is empty.
Closing a list clears `in_list` but leaves `list_type` at its last value. -/
theorem list_kind_invariant_amended (md5 : List Char → List Char)
    (st : ConvState) (line : List Char)
    (h : st.in_list = true →
      st.list_type = "ul".data ∨ st.list_type = "ol".data) :
    ((processLine md5 st line).in_list = true →
      (processLine md5 st line).list_type = "ul".data ∨
      (processLine md5 st line).list_type = "ol".data) ∧
    initState.in_list = false ∧ initState.list_type = [] := by
  refine ⟨?_, rfl, rfl⟩
  cases hh : matchHeading line with
  | some v =>
      obtain ⟨k, txt⟩ := v
      rw [processLine_heading hh]
      exact h
  | none =>
      cases hi : matchListItem line with
      | some item =>
          by_cases hl : st.in_list = true
          · rw [processLine_item_cont hh hi hl]
            exact fun _ => h hl
          · rw [processLine_item_open hh hi (Bool.eq_false_iff.mpr hl)]
            intro _
            by_cases hc : line.head? = some '*'
            · right; simp [hc]
            · left; simp [hc]
      | none =>
          intro habs
          by_cases hp : st.in_paragraph = true
          · by_cases hb : isBlank line = true
            · rw [processLine_other_endpara hh hi hp hb] at habs
              simp at habs
            · rw [processLine_other_content hh hi hp
                (Bool.eq_false_iff.mpr hb)] at habs
              simp at habs
          · by_cases hb : isBlank line = true
            · rw [processLine_other_blank_outside hh hi
                (Bool.eq_false_iff.mpr hp) hb] at habs
              simp at habs
            · rw [processLine_other_newpara hh hi (Bool.eq_false_iff.mpr hp)
                (Bool.eq_false_iff.mpr hb)] at habs
              simp at habs

theorem list_kind_invariant_amended_witness :
    ((processLine (fun x => x) initState "- a".data).in_list = true →
      (processLine (fun x => x) initState "- a".data).list_type = "ul".data ∨
      (processLine (fun x => x) initState "- a".data).list_type = "ol".data) ∧
    initState.in_list = false ∧ initState.list_type = [] :=
  list_kind_invariant_amended (fun x => x) initState "- a".data
    (fun hx => absurd hx (by decide))

/-- C7: applying the inline transformer twice to a string free of the four
delimiter pairs is a no-op (in fact each application is already the
identity on such strings). -/
theorem double_transform_id (md5 : List Char → List Char) (s : List Char)
    (h1 : hasSub "**".data s = false) (h2 : hasSub "__".data s = false)
    (h3 : hasSub "[[".data s = false) (_h4 : hasSub "]]".data s = false)
    (h5 : hasSub "((".data s = false) (_h6 : hasSub "))".data s = false) :
    parse_inline_markup md5 (parse_inline_markup md5 s) = s := by
  rw [parse_inline_markup_id h1 h2 h3 h5, parse_inline_markup_id h1 h2 h3 h5]

theorem double_transform_id_witness :
    (hasSub "**".data "hello world".data = false ∧
     hasSub "]]".data "hello world".data = false) ∧
    parse_inline_markup (fun x => x)
      (parse_inline_markup (fun x => x) "hello world".data) =
      "hello world".data :=
  ⟨⟨rfl, rfl⟩,
    double_transform_id (fun x => x) "hello world".data rfl rfl rfl rfl rfl rfl⟩

/-- C8: the inline transformer is a total function; when a pattern cannot
complete it substitutes nothing and the delimiters stay verbatim: shown in
general for a line without `]]` (the `[[` substitution is the identity)
and without `))` (the removal is the identity), and concretely for
unmatched `**`, `__`, `[[`, `((` and stray closers. -/
theorem malformed_markup_verbatim (md5 : List Char → List Char)
    (s : List Char)
    (h1 : hasSub "]]".data s = false) (h2 : hasSub "))".data s = false) :
    subMd5 md5 s = s ∧ subRemove s = s ∧
    parse_inline_markup md5 "**a".data = "**a".data ∧
    parse_inline_markup md5 "a**".data = "a**".data ∧
    parse_inline_markup md5 "__b".data = "__b".data ∧
    parse_inline_markup md5 "[[c".data = "[[c".data ∧
    parse_inline_markup md5 "((d".data = "((d".data ∧
    parse_inline_markup md5 "x]]y".data = "x]]y".data ∧
    parse_inline_markup md5 "***".data = "***".data :=
  ⟨subMd5_id_noclose h1, subRemove_id_noclose h2,
    rfl, rfl, rfl, rfl, rfl, rfl, rfl⟩

theorem malformed_markup_verbatim_witness :
    (hasSub "]]".data "[[unclosed".data = false ∧
     hasSub "))".data "[[unclosed".data = false) ∧
    subMd5 (fun x => x) "[[unclosed".data = "[[unclosed".data :=
  ⟨⟨rfl, rfl⟩,
    (malformed_markup_verbatim (fun x => x) "[[unclosed".data rfl rfl).1⟩

/-- C9: a heading line while a list is open emits only its heading
fragment — no `</ul>`/`</ol>` — and leaves `in_list` and `list_type`
untouched, so a later item continues the same list, as the run
`"- a","# H","- b"` shows. -/
theorem heading_keeps_list_open (md5 : List Char → List Char)
    (st : ConvState) (line txt : List Char) (k : Nat)
    (hl : st.in_list = true) (hh : matchHeading line = some (k, txt)) :
    (processLine md5 st line).in_list = true ∧
    (processLine md5 st line).list_type = st.list_type ∧
    (processLine md5 st line).html =
      st.html ++ pbeClosers st ++ [hFrag k (parse_inline_markup md5 txt)] ∧
    convert_markdown_to_html md5 ["- a".data, "# H".data, "- b".data] =
      ["<ul>".data, "<li>a</li>".data, "<h1>H</h1>".data, "<li>b</li>".data,
       "</ul>".data] := by
  rw [processLine_heading hh]
  exact ⟨hl, rfl, rfl, rfl⟩

theorem heading_keeps_list_open_witness :
    (processLine (fun x => x)
      { initState with in_list := true, list_type := "ul".data }
      "# H".data).in_list = true :=
  (heading_keeps_list_open (fun x => x)
    { initState with in_list := true, list_type := "ul".data }
    "# H".data "H".data 1 rfl rfl).1

theorem not_markup_beq {c : Char} (h : isMarkupChar c = false) :
    (c == '#') = false ∧ (c == '*') = false ∧ (c == '-') = false := by
  unfold isMarkupChar at h
  simp [Bool.or_eq_false_iff] at h
  exact ⟨by simp [h.1.1.1.1.1.1.1], by simp [h.1.1.1.1.1.1.2],
    by simp [h.1.1.1.1.1.2]⟩

theorem plain_no_match {x : List Char} (hpl : plainLine x = true) :
    isBlank x = false ∧ matchHeading x = none ∧ matchListItem x = none ∧
    x.all (fun c => !(isMarkupChar c)) = true := by
  obtain ⟨hmf, hnb⟩ := Bool.and_eq_true_iff.mp hpl
  have hb : isBlank x = false := by rwa [Bool.not_eq_true'] at hnb
  obtain ⟨c, r, rfl⟩ : ∃ c r, x = c :: r := by
    cases x with
    | nil => exact absurd hb (by simp [isBlank])
    | cons c r => exact ⟨c, r, rfl⟩
  have hcm : isMarkupChar c = false := by
    have := (List.all_eq_true.mp hmf) c (List.mem_cons_self c r)
    rwa [Bool.not_eq_true'] at this
  obtain ⟨hq, hs, hd⟩ := not_markup_beq hcm
  exact ⟨hb, matchHeading_cons_none hq, matchListItem_none_of_head hs hd, hmf⟩

theorem foldl_plain (md5 : List Char → List Char) :
    ∀ (ls : List (List Char)) (st : ConvState),
      st.in_list = false → st.in_paragraph = true →
      (∀ x ∈ ls, plainLine x = true) →
      List.foldl (processLine md5) st ls =
        { st with html := st.html ++ ls.map rstrip } := by
  intro ls
  induction ls with
  | nil =>
      intro st _ _ _
      simp
  | cons l t ih =>
      intro st h1 h2 hall
      obtain ⟨hb, hh, hi, hmf⟩ := plain_no_match (hall l (List.mem_cons_self l t))
      obtain ⟨shtml, sil, slt, sip, sib, sie⟩ := st
      simp only at h1 h2
      subst h1
      subst h2
      rw [List.foldl_cons, processLine_other_content hh hi rfl hb]
      simp only [if_neg (by simp : ¬(false = true))]
      rw [parse_id_of_markupFree (markupFree_rstrip hmf)]
      rw [ih _ rfl rfl (fun x hx => hall x (List.mem_cons_of_mem l hx))]
      simp

/-- C5 counterexample: the markup-free input line `hello` is not emitted
verbatim between `<p>` and `</p>`: the code prefixes the first line of
each paragraph with four spaces. -/
theorem paragraph_verbatim_counterexample :
    convert_markdown_to_html (fun x => x) ["hello".data] ≠
      ["<p>".data, "hello".data, "</p>".data] ∧
    convert_markdown_to_html (fun x => x) ["hello".data] =
      ["<p>".data, "    hello".data, "</p>".data] := ⟨by decide, rfl⟩

/-- C5 amended: for markup-free non-blank lines forming one paragraph,
the output is `<p>`, the first line right-stripped and prefixed with four
spaces, the remaining lines right-stripped, then `</p>`; a blank separator
line additionally emits an empty fragment (second conjunct). -/
theorem paragraph_wrapping (md5 : List Char → List Char) (l : List Char)
    (ls : List (List Char))
    (h1 : plainLine l = true) (h2 : ∀ x ∈ ls, plainLine x = true) :
    convert_markdown_to_html md5 (l :: ls) =
      "<p>".data :: ("    ".data ++ rstrip l) ::
        (ls.map rstrip ++ ["</p>".data]) ∧
    convert_markdown_to_html md5 ["a".data, [], "b".data] =
      ["<p>".data, "    a".data, "</p>".data, [], "<p>".data, "    b".data,
       "</p>".data] := by
  refine ⟨?_, rfl⟩
  obtain ⟨hb, hh, hi, hmf⟩ := plain_no_match h1
  unfold convert_markdown_to_html
  rw [List.foldl_cons, processLine_other_newpara hh hi rfl hb]
  rw [rstrip_append (rstrip_ne_nil hb)]
  rw [parse_id_of_markupFree
    (by rw [List.all_append]
        exact Bool.and_eq_true_iff.mpr ⟨rfl, markupFree_rstrip hmf⟩)]
  rw [foldl_plain md5 ls _ rfl rfl h2]
  unfold finalize
  simp [initState]

theorem paragraph_wrapping_witness :
    plainLine "hello".data = true ∧
    convert_markdown_to_html (fun x => x) ["hello".data] =
      "<p>".data :: ("    ".data ++ rstrip "hello".data) ::
        (([] : List (List Char)).map rstrip ++ ["</p>".data]) :=
  ⟨rfl, (paragraph_wrapping (fun x => x) "hello".data [] rfl
    (fun x hx => absurd hx (List.not_mem_nil x))).1⟩

/-- C10: the bold, emphasis and hashing patterns need a non-empty
interior, so `****`, `____` and `[[]]` are returned verbatim, while the
removal pattern accepts an empty interior, so `(())` is deleted. -/
theorem empty_interior_patterns (md5 : List Char → List Char) :
    parse_inline_markup md5 "****".data = "****".data ∧
    parse_inline_markup md5 "____".data = "____".data ∧
    parse_inline_markup md5 "[[]]".data = "[[]]".data ∧
    parse_inline_markup md5 "(())".data = [] ∧
    parse_inline_markup md5 "x(())y".data = "xy".data :=
  ⟨rfl, rfl, rfl, rfl, rfl⟩

end Markdown2Html
